import Mathlib

/-!
Verification of the orchestr framework core: the service Container, the event
Dispatcher, the Facade base class and the Event serialization layer.

The Container and Dispatcher implementations themselves are not present in the
repository snapshot (only their contracts `Contracts/Dispatcher`, the
`NullDispatcher`, and their test suites are).  Their definitions below are
therefore modelled from the specification (spec.md §3-§4), with the tests of
`tests/Container/Container.test` and `tests/Events/Dispatcher.test` used as the
authority where they pin behaviour down.  The Facade (`Support/Facade.ts`) and
the Event base class (`Events/Event.ts`) are translated from their sources.

JavaScript `Map`s keyed by strings are modelled as association lists, object
identity of freshly allocated factory results is modelled by a seed counter
threaded through the container, and listener invocation is made observable by
returning the list of invoked listener identifiers next to the return values.
-/

namespace Orchestr

/-- Association-list lookup: the model of `Map.get` (first entry with the key
wins; entries are kept key-unique by `insertA`). -/
def lookupA : List (String × α) → String → Option α
  | [], _ => none
  | (k, v) :: l, key => if k == key then some v else lookupA l key

/-- Association-list deletion: the model of `Map.delete`. -/
def eraseA (l : List (String × α)) (k : String) : List (String × α) :=
  l.filter (fun p => p.1 != k)

/-- Association-list insertion: the model of `Map.set` (replaces any previous
entry for the key). -/
def insertA (l : List (String × α)) (k : String) (v : α) : List (String × α) :=
  eraseA l k ++ [(k, v)]

/-- A listener return value: JavaScript listeners can return `undefined`,
`null`, or an actual value (possibly `false`, which is a value here). -/
inductive JsRet (V : Type) where
  | undef : JsRet V
  | null : JsRet V
  | val : V → JsRet V
deriving DecidableEq

/-- Modelled from the spec: a ListenerEntry handler.  A listener is invoked
with the dispatch payload and returns a JavaScript value; the `id` field makes
invocations observable in the model. -/
structure Listener (P V : Type) where
  id : Nat
  handler : P → JsRet V

/-- Modelled from the spec: the Dispatcher state, holding the ListenerRegistry
(pattern/listener pairs in registration order) and the EventQueue (pushed
`(eventName, payload)` pairs in push order; the per-name FIFO sequences of the
spec's map are recovered by filtering on the name). -/
structure Disp (P V : Type) where
  listeners : List (String × Listener P V)
  pushed : List (String × P)

/-- String prefix test, over the character lists of the strings. -/
def strStartsWith (s pre : String) : Bool :=
  pre.data.isPrefixOf s.data

/-- String suffix test, over the character lists of the strings. -/
def strEndsWith (s suf : String) : Bool :=
  suf.data.isSuffixOf s.data

/-- Drop the last `n` characters of a string. -/
def strDropRight (s : String) (n : Nat) : String :=
  ⟨s.data.take (s.data.length - n)⟩

/-- Modelled from the spec: a trailing `*` in a pattern matches the remainder
of the event name including dots (a prefix match); a bare `*` matches every
event name. -/
def wildcardMatches (pat e : String) : Bool :=
  strEndsWith pat "*" && strStartsWith e (strDropRight pat 1)

/-- Modelled from the spec: a pattern matches an event name exactly or via a
trailing wildcard. -/
def patMatches (pat e : String) : Bool :=
  pat == e || wildcardMatches pat e

/-- Modelled from the spec: `listen` registers a listener under a pattern,
appending to the registration order. -/
def listen (s : Disp P V) (pat : String) (l : Listener P V) : Disp P V :=
  { s with listeners := s.listeners ++ [(pat, l)] }

/-- Modelled from the spec: `hasListeners(eventName)` is true if any registered
pattern (exact or wildcard) matches the event name. -/
def hasListeners (s : Disp P V) (e : String) : Bool :=
  s.listeners.any (fun q => patMatches q.1 e)

/-- Modelled from the spec: the listeners matching an event name — exact-match
listeners first in registration order, then wildcard listeners in registration
order. -/
def listenersFor (s : Disp P V) (e : String) : List (Listener P V) :=
  ((s.listeners.filter (fun q => q.1 == e)).map Prod.snd)
    ++ ((s.listeners.filter (fun q => q.1 != e && wildcardMatches q.1 e)).map Prod.snd)

/-- Keep a listener return value when it is neither `null` nor `undefined`
(the spec's "collect all non-null/non-undefined results"). -/
def JsRet.toResult : JsRet V → Option V
  | .val v => some v
  | _ => none

/-- Modelled from the spec: `dispatch(event, payload, halt=false)` invokes
every matching listener and collects the non-null/non-undefined results.
Returns the results together with the ids of the invoked listeners. -/
def dispatchAll (s : Disp P V) (e : String) (p : P) : List V × List Nat :=
  ((listenersFor s e).filterMap (fun l => (l.handler p).toResult),
   (listenersFor s e).map Listener.id)

/-- The halting iteration of `dispatch(..., halt=true)`: stop at the first
listener whose return value is not `undefined` and return that value
(`null` when every listener returns `undefined`). -/
def haltGo (p : P) : List (Listener P V) → JsRet V × List Nat
  | [] => (JsRet.null, [])
  | l :: ls =>
    match l.handler p with
    | .undef => ((haltGo p ls).1, l.id :: (haltGo p ls).2)
    | .null => (JsRet.null, [l.id])
    | .val v => (JsRet.val v, [l.id])

/-- Modelled from the spec: `dispatch(event, payload, halt=true)` stops
iterating and returns the first non-undefined listener return value
immediately.  Returns the value with the ids of the invoked listeners. -/
def dispatchHalt (s : Disp P V) (e : String) (p : P) : JsRet V × List Nat :=
  haltGo p (listenersFor s e)

/-- Modelled from the spec: `push(eventName, payload)` appends to the
EventQueue without invoking listeners. -/
def push (s : Disp P V) (e : String) (p : P) : Disp P V :=
  { s with pushed := s.pushed ++ [(e, p)] }

/-- The queued payloads for an event name, oldest first. -/
def queued (s : Disp P V) (e : String) : List P :=
  (s.pushed.filter (fun q => q.1 == e)).map Prod.snd

/-- Modelled from the spec: `flush(eventName)` dispatches every queued payload
for the name in FIFO order, then clears the queue for that name.  Returns the
list of performed dispatches (payload with its dispatch outcome) and the new
state. -/
def flushD (s : Disp P V) (e : String) : List (P × (List V × List Nat)) × Disp P V :=
  ((queued s e).map (fun p => (p, dispatchAll s e p)),
   { s with pushed := s.pushed.filter (fun q => q.1 != e) })

/-- A sequence of `push` calls for one event name. -/
def pushMany (s : Disp P V) (e : String) (ps : List P) : Disp P V :=
  ps.foldl (fun acc p => push acc e p) s

/-- Modelled from the spec: the Container state — Bindings (factory plus
shared flag), Instances, Aliases (aliasId → targetId) and the
ResolvedInstancesCache.  A factory is modelled as a function of a freshness
seed: each factory invocation consumes the container's `nextSeed`, so distinct
invocations model distinct freshly-allocated objects (the factory's container
argument and recursive resolution inside factories are outside the modelled
fragment).  Following the repository's Container tests (`resolved()` is true
after `make` on a non-shared binding, and rebinding a non-shared binding
clears the cached resolved instance), the cache records every factory
resolution, not only shared ones; resolution itself only ever reads the cache
for shared bindings, exactly as in the spec's step 3. -/
structure Cont (V : Type) where
  bindings : List (String × ((Nat → V) × Bool))
  instances : List (String × V)
  aliases : List (String × String)
  resolvedCache : List (String × V)
  nextSeed : Nat

/-- Whether an id has a direct Binding or Instance (the stopping condition of
alias-chain resolution). -/
def hasBI (s : Cont V) (x : String) : Bool :=
  (lookupA s.bindings x).isSome || (lookupA s.instances x).isSome

/-- Modelled from the spec: follow the alias chain until an id with a direct
Binding/Instance is found (fuelled; cyclic chains are undefined behaviour in
the spec and simply exhaust the fuel here). -/
def followAliases (s : Cont V) : Nat → String → String
  | 0, x => x
  | n + 1, x =>
    if hasBI s x then x
    else
      match lookupA s.aliases x with
      | some y => followAliases s n y
      | none => x

/-- The terminal (alias-followed) id of an abstract id. -/
def terminalId (s : Cont V) (x : String) : String :=
  followAliases s (s.aliases.length + 1) x

/-- Modelled from the spec: the body of `make` once the terminal id is known:
return a registered Instance directly; return the cached instance of a shared
Binding; otherwise invoke the Binding's factory on a fresh seed and record the
resolution in the cache.  `none` models a `BindingResolutionError` (automatic
class resolution via reflection metadata applies only to class-reference ids
and is outside this string-keyed model).  The returned list carries the ids
whose factory was invoked, making factory invocations observable. -/
def resolveAt (s : Cont V) (t : String) : Option (V × Cont V × List String) :=
  match lookupA s.instances t with
  | some v => some (v, s, [])
  | none =>
    match lookupA s.bindings t with
    | none => none
    | some fb =>
      if fb.2 then
        match lookupA s.resolvedCache t with
        | some v => some (v, s, [])
        | none =>
          some (fb.1 s.nextSeed,
            { s with
              resolvedCache := insertA s.resolvedCache t (fb.1 s.nextSeed),
              nextSeed := s.nextSeed + 1 }, [t])
      else
        some (fb.1 s.nextSeed,
          { s with
            resolvedCache := insertA s.resolvedCache t (fb.1 s.nextSeed),
            nextSeed := s.nextSeed + 1 }, [t])

/-- Modelled from the spec: `make(abstractId)` follows the alias chain to the
terminal id and resolves there. -/
def make (s : Cont V) (x : String) : Option (V × Cont V × List String) :=
  resolveAt s (terminalId s x)

/-- Modelled from the spec: `bind(abstractId, factory, shared=false)` registers
a factory and invalidates any cached resolved instance for the id. -/
def bind (s : Cont V) (x : String) (f : Nat → V) (shared : Bool) : Cont V :=
  { s with
    bindings := insertA s.bindings x (f, shared),
    resolvedCache := eraseA s.resolvedCache x }

/-- Modelled from the spec: `singleton(abstractId, factory)` is
`bind(abstractId, factory, shared=true)`. -/
def singleton (s : Cont V) (x : String) (f : Nat → V) : Cont V :=
  bind s x f true

/-- Modelled from the spec: `instance(abstractId, value)` registers a concrete
value directly (always considered resolved; overrides any Binding). -/
def instanceC (s : Cont V) (x : String) (v : V) : Cont V :=
  { s with instances := insertA s.instances x v }

/-- Modelled from the spec: `alias(abstractId, aliasId)` records
aliasId → abstractId. -/
def aliasC (s : Cont V) (target aliasId : String) : Cont V :=
  { s with aliases := insertA s.aliases aliasId target }

/-- Modelled from the spec: `bound(abstractId)` is true if the id has a
Binding or an Instance, or reaches one through the alias chain. -/
def bound (s : Cont V) (x : String) : Bool :=
  hasBI s (terminalId s x)

/-- Modelled from the spec: `resolved(abstractId)` is true if the id has an
Instance, or if its terminal (alias-followed) id has an entry in the
ResolvedInstancesCache. -/
def resolved (s : Cont V) (x : String) : Bool :=
  (lookupA s.instances x).isSome
    || (lookupA s.resolvedCache (terminalId s x)).isSome

/-- Modelled from the spec: `flush()` clears Bindings, Instances, Aliases and
the ResolvedInstancesCache, leaving no partial state. -/
def flushC (s : Cont V) : Cont V :=
  { bindings := [], instances := [], aliases := [], resolvedCache := [],
    nextSeed := s.nextSeed }

/-- Iterated `make`: the results, final state and all factory invocations of
`n` consecutive `make(x)` calls. -/
def makeN (s : Cont V) (x : String) : Nat → Option (List V × Cont V × List String)
  | 0 => some ([], s, [])
  | n + 1 =>
    (make s x).bind fun r =>
      (makeN r.2.1 x n).map fun q => (r.1 :: q.1, q.2.1, r.2.2 ++ q.2.2)

/-- An alias chain of length `n` from `x` to a terminal id `z` that has a
direct Binding or Instance: every intermediate id is itself unbound and
carries an alias edge to the next id. -/
inductive AliasChain (s : Cont V) : String → String → Nat → Prop where
  | terminal (z : String) : hasBI s z = true → AliasChain s z z 0
  | step (x y z : String) (n : Nat) :
      hasBI s x = false → lookupA s.aliases x = some y →
      AliasChain s y z n → AliasChain s x z (n + 1)

/-- The errors `Facade.resolveFacadeInstance` can surface: the facade-root
error thrown when no application has been set (`FacadeRootUnavailableError` in
the spec's taxonomy, `Error('A facade root has not been set.')` in the
source), and a propagated resolution failure from `Application.make`. -/
inductive FacadeErr where
  | rootUnavailable : FacadeErr
  | bindingResolution : FacadeErr
deriving DecidableEq

/-- The static state of the `Facade` class: the single process-wide
application reference (`Facade.app`, `none` before `setFacadeApplication`) and
the single process-wide `resolvedInstances` map shared by every Facade
subclass.  The application is modelled by the Container. -/
structure FacadeS (V : Type) where
  app : Option (Cont V)
  resolvedInstances : List (String × V)

/-- `Facade.setFacadeApplication(app)`. -/
def setFacadeApplication (st : FacadeS V) (app : Cont V) : FacadeS V :=
  { st with app := some app }

/-- `Facade.resolveFacadeInstance(name)`: return the cached instance when one
exists; otherwise, when the application has been set, resolve through its
`make`, cache and return the result; otherwise throw the facade-root error. -/
def resolveFacadeInstance (st : FacadeS V) (name : String) :
    Except FacadeErr (V × FacadeS V) :=
  match lookupA st.resolvedInstances name with
  | some v => .ok (v, st)
  | none =>
    match st.app with
    | some app =>
      match make app name with
      | some (v, app', _) =>
        .ok (v, { app := some app',
                  resolvedInstances := insertA st.resolvedInstances name v })
      | none => .error .bindingResolution
    | none => .error .rootUnavailable

/-- `Facade.clearResolvedInstance(name)`. -/
def clearResolvedInstance (st : FacadeS V) (name : String) : FacadeS V :=
  { st with resolvedInstances := eraseA st.resolvedInstances name }

/-- `Facade.clearResolvedInstances()`. -/
def clearResolvedInstances (st : FacadeS V) : FacadeS V :=
  { st with resolvedInstances := [] }

/-- A JavaScript value as the Event serialization layer sees it: `undefined`,
`null`, booleans, numbers, strings, `Date` objects (carried as their numeric
time value: `toISOString` and the `Date` constructor are mutually inverse on
time values, so the ISO string in the wire format is abstracted to the time
value it encodes), arrays, and plain objects. -/
inductive JVal where
  | undef : JVal
  | null : JVal
  | bool : Bool → JVal
  | num : Int → JVal
  | str : String → JVal
  | date : Int → JVal
  | arr : List JVal → JVal
  | obj : List (String × JVal) → JVal

/-- JavaScript truthiness of a value (`undefined`, `null`, `false`, `0` and
`''` are falsy; every object — including arrays and dates — is truthy). -/
def truthy : JVal → Bool
  | .undef => false
  | .null => false
  | .bool b => b
  | .num n => n != 0
  | .str s => s != ""
  | .date _ => true
  | .arr _ => true
  | .obj _ => true

/-- Whether a value is `undefined`. -/
def isUndef : JVal → Bool
  | .undef => true
  | _ => false

/-- Whether a value is a defined primitive or a `Date` object. -/
def isPrimOrDate : JVal → Bool
  | .null => true
  | .bool _ => true
  | .num _ => true
  | .str _ => true
  | .date _ => true
  | _ => false

mutual

/-- `Event.serializeValue`: `null`/`undefined` pass through, `Date`s become
`{_type: 'Date', value: <ISO timestamp>}` markers, arrays and plain objects
are serialized element-wise, primitives pass through.  (Objects carrying a
custom `toJSON` method are outside the modelled value universe.) -/
def serializeValue : JVal → JVal
  | .null => .null
  | .undef => .undef
  | .date t => .obj [("_type", .str "Date"), ("value", .num t)]
  | .arr xs => .arr (serializeList xs)
  | .obj fs => .obj (serializeFields fs)
  | .bool b => .bool b
  | .num n => .num n
  | .str s => .str s

/-- Element-wise serialization of an array. -/
def serializeList : List JVal → List JVal
  | [] => []
  | x :: xs => serializeValue x :: serializeList xs

/-- Entry-wise serialization of a plain object. -/
def serializeFields : List (String × JVal) → List (String × JVal)
  | [] => []
  | (k, v) :: fs => (k, serializeValue v) :: serializeFields fs

end

mutual

/-- `Event.deserializeValue`: `null`/`undefined` pass through; an object with
a truthy `_type` field is a type marker — `'Date'` markers are restored to a
`Date` from their value slot (a non-numeric slot would be an Invalid Date,
collapsed to time 0 here) and unknown markers are returned whole, unrecursed;
other objects and arrays are deserialized element-wise; primitives pass
through. -/
def deserializeValue : JVal → JVal
  | .arr xs => .arr (deserializeList xs)
  | .obj fs =>
    match lookupA fs "_type" with
    | some tv =>
      if truthy tv then
        match tv with
        | .str tname =>
          if tname == "Date" then
            match lookupA fs "value" with
            | some (.num t) => .date t
            | _ => .date 0
          else .obj fs
        | _ => .obj fs
      else .obj (deserializeFields fs)
    | none => .obj (deserializeFields fs)
  | .null => .null
  | .undef => .undef
  | .bool b => .bool b
  | .num n => .num n
  | .str s => .str s
  | .date t => .date t

/-- Element-wise deserialization of an array. -/
def deserializeList : List JVal → List JVal
  | [] => []
  | x :: xs => deserializeValue x :: deserializeList xs

/-- Entry-wise deserialization of a plain object. -/
def deserializeFields : List (String × JVal) → List (String × JVal)
  | [] => []
  | (k, v) :: fs => (k, deserializeValue v) :: deserializeFields fs

end

/-- An Event instance: its prototype's class name, the class's static
`serializable` exclusion list, and its own enumerable properties in
`getOwnPropertyNames` order (keys are unique on a JavaScript object). -/
structure EventObj where
  className : String
  serializable : List String
  props : List (String × JVal)

/-- `Event.toJSON`: a `_class` field holding the constructor name, followed by
every own property that is not in the class's `serializable` exclusion list,
does not start with `_`, and is not `undefined`, serialized via
`serializeValue`. -/
def Event.toJSON (ev : EventObj) : List (String × JVal) :=
  ("_class", .str ev.className) ::
    ev.props.filterMap (fun kv =>
      if ev.serializable.contains kv.1 then none
      else if strStartsWith kv.1 "_" then none
      else if isUndef kv.2 then none
      else some (kv.1, serializeValue kv.2))

/-- `Event.fromJSON`, invoked on a class with the given name and exclusion
list: create an instance of that prototype and restore every field of the data
except `_class` via `deserializeValue`. -/
def Event.fromJSON (className : String) (serializable : List String)
    (data : List (String × JVal)) : EventObj :=
  { className := className, serializable := serializable,
    props := data.filterMap (fun kv =>
      if kv.1 == "_class" then none
      else some (kv.1, deserializeValue kv.2)) }

/-! Association-list lemmas. -/

theorem lookupA_eraseA_self (l : List (String × α)) (k : String) :
    lookupA (eraseA l k) k = none := by
  induction l with
  | nil => rfl
  | cons p l ih =>
    rw [eraseA, List.filter_cons]
    simp only [eraseA] at ih
    by_cases h : p.1 = k
    · simp [h, ih]
    · simp [lookupA, h, ih]

theorem lookupA_append_singleton (l : List (String × α)) (k : String) (v : α)
    (h : lookupA l k = none) : lookupA (l ++ [(k, v)]) k = some v := by
  induction l with
  | nil => simp [lookupA]
  | cons p l ih =>
    rw [lookupA] at h
    by_cases hp : p.1 == k
    · simp [hp] at h
    · rw [List.cons_append, lookupA, if_neg (by simpa using hp)]
      exact ih (by simpa [hp] using h)

theorem lookupA_insertA_self (l : List (String × α)) (k : String) (v : α) :
    lookupA (insertA l k v) k = some v :=
  lookupA_append_singleton _ _ _ (lookupA_eraseA_self l k)

/-! Dispatcher: halting dispatch (C1). -/

theorem haltGo_spec (p : P) (pre : List (Listener P V)) (l : Listener P V)
    (post : List (Listener P V))
    (hpre : ∀ l' ∈ pre, l'.handler p = JsRet.undef)
    (hl : l.handler p ≠ JsRet.undef) :
    haltGo p (pre ++ l :: post) = (l.handler p, pre.map Listener.id ++ [l.id]) := by
  induction pre with
  | nil =>
    cases hr : l.handler p with
    | undef => exact absurd hr hl
    | null => simp [haltGo, hr]
    | val v => simp [haltGo, hr]
  | cons q pre ih =>
    have hq : q.handler p = JsRet.undef := hpre q (by simp)
    have ih' := ih (fun l' hm => hpre l' (List.mem_cons_of_mem _ hm))
    simp [haltGo, hq, ih']

/-- C1: with `halt=true`, `dispatch` invokes the matching listeners in order
only up to and including the first listener whose return value is not
`undefined`, returns that listener's value immediately, and never invokes any
later listener — the invoked-listener list is exactly the ids of the undefined
prefix plus the first responder; in particular a first listener returning
`false` halts the dispatch before the second listener. -/
theorem dispatch_halt_stops_at_first_nonundef (s : Disp P V) (e : String) (p : P)
    (pre post : List (Listener P V)) (l : Listener P V)
    (hls : listenersFor s e = pre ++ l :: post)
    (hpre : ∀ l' ∈ pre, l'.handler p = JsRet.undef)
    (hl : l.handler p ≠ JsRet.undef) :
    dispatchHalt s e p = (l.handler p, pre.map Listener.id ++ [l.id]) := by
  rw [dispatchHalt, hls]
  exact haltGo_spec p pre l post hpre hl

/-- Witness for C1: two listeners on `'test'`, the first returning `false`;
the halting dispatch returns `false` having invoked only listener 0 — the
second listener (id 1) is not invoked. -/
theorem dispatch_halt_stops_at_first_nonundef_witness :
    dispatchHalt
      (⟨[("test", ⟨0, fun _ => JsRet.val false⟩),
         ("test", ⟨1, fun _ => JsRet.val true⟩)], []⟩ : Disp Unit Bool)
      "test" () = (JsRet.val false, [0]) :=
  dispatch_halt_stops_at_first_nonundef _ "test" () [] [⟨1, fun _ => JsRet.val true⟩]
    ⟨0, fun _ => JsRet.val false⟩ rfl (by intro l' h; cases h) (by decide)

/-! Dispatcher: wildcard matching (C4). -/

/-- C4: a listener registered under a pattern with a trailing `*` is invoked
by `dispatch` for every event name that begins with the pattern's prefix
(across any number of dot-separated segments; the bare pattern `*`, whose
prefix is empty, matches every event name), and `hasListeners` is true exactly
when some registered exact or wildcard pattern matches the event name. -/
theorem wildcard_prefix_invoked_and_hasListeners (s : Disp P V) (e : String) (p : P) :
    (∀ pat l, (pat, l) ∈ s.listeners → strEndsWith pat "*" = true →
        strStartsWith e (strDropRight pat 1) = true →
        l.id ∈ (dispatchAll s e p).2 ∧ hasListeners s e = true)
    ∧ (hasListeners s e = true ↔ ∃ q ∈ s.listeners, patMatches q.1 e = true) := by
  constructor
  · intro pat l hmem hstar hpre
    have hw : wildcardMatches pat e = true := by
      simp [wildcardMatches, hstar, hpre]
    have hfor : l ∈ listenersFor s e := by
      by_cases hx : pat == e
      · exact List.mem_append_left _
          (List.mem_map_of_mem Prod.snd (List.mem_filter.mpr ⟨hmem, hx⟩))
      · refine List.mem_append_right _
          (List.mem_map_of_mem Prod.snd (List.mem_filter.mpr ⟨hmem, ?_⟩))
        simp only [Bool.and_eq_true, bne_iff_ne, ne_eq]
        exact ⟨by simpa using hx, hw⟩
    refine ⟨List.mem_map_of_mem Listener.id hfor, ?_⟩
    rw [hasListeners, List.any_eq_true]
    exact ⟨(pat, l), hmem, by simp [patMatches, hw]⟩
  · rw [hasListeners, List.any_eq_true]

/-- Witness for C4: a `'user.*'` listener is invoked for
`'user.updated.profile'` (two segments past the prefix) and the event reports
listeners. -/
theorem wildcard_prefix_invoked_and_hasListeners_witness :
    (0 : Nat) ∈ (dispatchAll
        (⟨[("user.*", ⟨0, fun _ => JsRet.val 1⟩)], []⟩ : Disp Unit Nat)
        "user.updated.profile" ()).2
    ∧ hasListeners
        (⟨[("user.*", ⟨0, fun _ => JsRet.val 1⟩)], []⟩ : Disp Unit Nat)
        "user.updated.profile" = true :=
  (wildcard_prefix_invoked_and_hasListeners _ _ ()).1 "user.*"
    ⟨0, fun _ => JsRet.val 1⟩ (List.Mem.head _) (by decide) (by decide)

/-! Dispatcher: push/flush queue (C5). -/

theorem queued_push (s : Disp P V) (e e' : String) (p : P) :
    queued (push s e' p) e = queued s e ++ (if e' == e then [p] else []) := by
  by_cases h : e' == e <;>
    simp [queued, push, List.filter_append, List.filter_cons, h]

theorem queued_pushMany (s : Disp P V) (e : String) (ps : List P) :
    queued (pushMany s e ps) e = queued s e ++ ps := by
  induction ps generalizing s with
  | nil => simp [pushMany]
  | cons p ps ih =>
    have : pushMany s e (p :: ps) = pushMany (push s e p) e ps := rfl
    rw [this, ih, queued_push]
    simp

theorem pushed_filter_of_queued_nil (s : Disp P V) (e : String)
    (h : queued s e = []) : s.pushed.filter (fun q => q.1 != e) = s.pushed := by
  rw [queued] at h
  have hnil : s.pushed.filter (fun q => q.1 == e) = [] := by
    cases hf : s.pushed.filter (fun q => q.1 == e) with
    | nil => rfl
    | cons a l => rw [hf] at h; simp at h
  rw [List.filter_eq_nil_iff] at hnil
  rw [List.filter_eq_self]
  intro a ha
  simpa using hnil a ha

theorem flushD_noop (s : Disp P V) (e : String) (h : queued s e = []) :
    flushD s e = ([], s) := by
  rw [flushD, h, pushed_filter_of_queued_nil s e h]
  rfl

theorem queued_flushD_self (s : Disp P V) (e : String) :
    queued (flushD s e).2 e = [] := by
  simp [queued, flushD, List.filter_filter]

/-- C5: after pushing payloads `ps` for an event name with an empty queue, a
single `flush` dispatches exactly those payloads in FIFO order and clears the
queue for that name, so an immediately following `flush` performs no dispatch
(invoking no listener) and leaves the state unchanged; flushing a name with no
queued entries is a no-op. -/
theorem push_flush_fifo (s : Disp P V) (e : String) (ps : List P)
    (h : queued s e = []) :
    ((flushD (pushMany s e ps) e).1.map Prod.fst = ps)
    ∧ queued (flushD (pushMany s e ps) e).2 e = []
    ∧ flushD (flushD (pushMany s e ps) e).2 e = ([], (flushD (pushMany s e ps) e).2)
    ∧ flushD s e = ([], s) := by
  have hq : queued (pushMany s e ps) e = ps := by rw [queued_pushMany, h, List.nil_append]
  refine ⟨?_, queued_flushD_self _ e, ?_, flushD_noop s e h⟩
  · simp [flushD, hq, Function.comp_def]
  · exact flushD_noop _ e (queued_flushD_self _ e)

/-- Witness for C5: pushing `1` then `2` for `'e'` and flushing dispatches the
payloads `[1, 2]` in that order. -/
theorem push_flush_fifo_witness :
    (flushD (pushMany
        (⟨[("e", ⟨0, fun _ => JsRet.val 9⟩)], []⟩ : Disp Nat Nat) "e" [1, 2]) "e").1.map
      Prod.fst = [1, 2] :=
  (push_flush_fifo (⟨[("e", ⟨0, fun _ => JsRet.val 9⟩)], []⟩ : Disp Nat Nat)
    "e" [1, 2] rfl).1

/-! Container: resolution lemmas. -/

theorem terminalId_of_hasBI (s : Cont V) (x : String) (h : hasBI s x = true) :
    terminalId s x = x := by
  rw [terminalId]
  show followAliases s (s.aliases.length + 1) x = x
  rw [followAliases, if_pos h]

theorem make_stable_instance (s : Cont V) (x : String) (v : V)
    (h : lookupA s.instances x = some v) : make s x = some (v, s, []) := by
  have hbi : hasBI s x = true := by simp [hasBI, h]
  rw [make, terminalId_of_hasBI s x hbi, resolveAt, h]

theorem make_stable_cached (s : Cont V) (x : String) (f : Nat → V) (v : V)
    (hb : lookupA s.bindings x = some (f, true))
    (hi : lookupA s.instances x = none)
    (hc : lookupA s.resolvedCache x = some v) : make s x = some (v, s, []) := by
  have hbi : hasBI s x = true := by simp [hasBI, hb]
  rw [make, terminalId_of_hasBI s x hbi]
  simp [resolveAt, hi, hb, hc]

theorem makeN_stable (s : Cont V) (x : String) (v : V)
    (h : make s x = some (v, s, [])) (n : Nat) :
    makeN s x n = some (List.replicate n v, s, []) := by
  induction n with
  | zero => simp [makeN]
  | succ m ih => simp [makeN, h, ih, List.replicate_succ]

theorem make_fresh (s : Cont V) (x : String) (fb : (Nat → V) × Bool)
    (hb : lookupA s.bindings x = some fb)
    (hi : lookupA s.instances x = none)
    (hc : lookupA s.resolvedCache x = none) :
    make s x = some (fb.1 s.nextSeed,
      ⟨s.bindings, s.instances, s.aliases,
        insertA s.resolvedCache x (fb.1 s.nextSeed), s.nextSeed + 1⟩, [x]) := by
  have hbi : hasBI s x = true := by simp [hasBI, hb]
  rw [make, terminalId_of_hasBI s x hbi]
  obtain ⟨f, sh⟩ := fb
  cases sh <;> simp [resolveAt, hi, hb, hc]

/-- C2: after `singleton(x, f)`, any run of consecutive `make(x)` calls
returns one and the same reference throughout, and invokes the factory at most
once in total across all of the calls (zero times when an Instance shadows the
binding, once otherwise; the first resolution is cached and reused). -/
theorem singleton_make_shares_and_invokes_factory_once (s : Cont V) (x : String)
    (f : Nat → V) (n : Nat) (vs : List V) (s2 : Cont V) (cs : List String)
    (h : makeN (singleton s x f) x n = some (vs, s2, cs)) :
    (∀ a ∈ vs, ∀ b ∈ vs, a = b) ∧ cs.length ≤ 1 := by
  have hb : lookupA (singleton s x f).bindings x = some (f, true) :=
    lookupA_insertA_self s.bindings x (f, true)
  have hc : lookupA (singleton s x f).resolvedCache x = none :=
    lookupA_eraseA_self s.resolvedCache x
  cases n with
  | zero =>
    simp only [makeN, Option.some_inj, Prod.mk.injEq] at h
    obtain ⟨h1, -, h3⟩ := h
    simp [← h1, ← h3]
  | succ m =>
    cases hi : lookupA (singleton s x f).instances x with
    | some v =>
      have hm := make_stable_instance (singleton s x f) x v hi
      rw [makeN_stable (singleton s x f) x v hm (m + 1), Option.some_inj] at h
      simp only [Prod.mk.injEq] at h
      obtain ⟨h1, -, h3⟩ := h
      constructor
      · intro a ha b hb
        rw [← h1] at ha hb
        rw [List.eq_of_mem_replicate ha, List.eq_of_mem_replicate hb]
      · simp [← h3]
    | none =>
      have hmk := make_fresh (singleton s x f) x (f, true) hb hi hc
      have hm2 := make_stable_cached
        (⟨(singleton s x f).bindings, (singleton s x f).instances,
          (singleton s x f).aliases,
          insertA (singleton s x f).resolvedCache x (f (singleton s x f).nextSeed),
          (singleton s x f).nextSeed + 1⟩ : Cont V) x f
        (f (singleton s x f).nextSeed) hb hi (lookupA_insertA_self _ x _)
      have hrest := makeN_stable _ x _ hm2 m
      rw [makeN, hmk, Option.some_bind, hrest] at h
      simp only [Option.map_some, Option.some_inj, Prod.mk.injEq] at h
      obtain ⟨rfl, -, rfl⟩ := h
      constructor
      · intro a ha b hbm
        simp only [List.mem_cons, List.mem_replicate] at ha hbm
        rcases ha with rfl | ⟨-, rfl⟩ <;> rcases hbm with rfl | ⟨-, rfl⟩ <;> rfl
      · simp

/-- Witness for C2: a container after `singleton('service', f)`; two
consecutive `make('service')` calls return the same value twice and the
factory-invocation trace has length one. -/
theorem singleton_make_shares_and_invokes_factory_once_witness :
    (∀ a ∈ [0, 0], ∀ b ∈ [0, 0], a = b) ∧ (["service"] : List String).length ≤ 1 :=
  singleton_make_shares_and_invokes_factory_once (⟨[], [], [], [], 0⟩ : Cont Nat)
    "service" (fun n => n) 2 [0, 0] _ ["service"] rfl

/-- C3 counterexample: on a fresh container, `bind('foo', f)` (non-shared)
followed by `make('foo')` leaves `resolved('foo')` equal to `true`, exactly as
the repository's Container tests assert — contradicting the claim that
`resolved(id)` remains false after `make(id)` for a non-shared binding. -/
theorem resolved_nonshared_counterexample :
    (make (bind (⟨[], [], [], [], 0⟩ : Cont Nat) "foo" (fun n => n) false) "foo").map
      (fun r => resolved r.2.1 "foo") = some true := rfl

/-- C3 (amended): `resolved(abstractId)` returns true exactly when the id has
an Instance, or when its terminal (alias-followed) id has an entry in the
ResolvedInstancesCache; that cache records every factory resolution (shared or
not), so for every id registered via non-shared `bind(id, factory)`,
`resolved(id)` becomes true after `make(id)` has been called. -/
theorem resolved_iff_cache_and_true_after_nonshared_make (s : Cont V)
    (x : String) (f : Nat → V) :
    (resolved s x = ((lookupA s.instances x).isSome
        || (lookupA s.resolvedCache (terminalId s x)).isSome))
    ∧ ((make (bind s x f false) x).map (fun r => resolved r.2.1 x) = some true) := by
  refine ⟨rfl, ?_⟩
  have hb : lookupA (bind s x f false).bindings x = some (f, false) :=
    lookupA_insertA_self s.bindings x (f, false)
  cases hi : lookupA (bind s x f false).instances x with
  | some v =>
    rw [make_stable_instance (bind s x f false) x v hi]
    simp [resolved, hi]
  | none =>
    have hc : lookupA (bind s x f false).resolvedCache x = none :=
      lookupA_eraseA_self s.resolvedCache x
    rw [make_fresh (bind s x f false) x (f, false) hb hi hc]
    have hbi2 : hasBI (⟨(bind s x f false).bindings, (bind s x f false).instances,
        (bind s x f false).aliases,
        insertA (bind s x f false).resolvedCache x (f (bind s x f false).nextSeed),
        (bind s x f false).nextSeed + 1⟩ : Cont V) x = true := by
      simp [hasBI, hb]
    simp [resolved, hi, terminalId_of_hasBI _ x hbi2, lookupA_insertA_self]

/-- C6: `Container.flush()` clears all four state components — Bindings,
Instances, Aliases and the ResolvedInstancesCache — with no partial state
remaining, so afterwards `bound(id)` is false for every id, whether it was
previously bound directly, registered as an instance, or reachable through an
alias. -/
theorem flush_clears_all_state (s : Cont V) (x : String) :
    bound (flushC s) x = false
    ∧ (flushC s).bindings = []
    ∧ (flushC s).instances = []
    ∧ (flushC s).aliases = []
    ∧ (flushC s).resolvedCache = [] :=
  ⟨rfl, rfl, rfl, rfl, rfl⟩

/-! Container: alias transparency (C7). -/

theorem aliasChain_hasBI (h : AliasChain s x z n) : hasBI s z = true := by
  induction h with
  | terminal z hz => exact hz
  | step x y z n hx he hc ih => exact ih

theorem aliasChain_followAliases (h : AliasChain s x z n) :
    ∀ fuel, n < fuel → followAliases s fuel x = z := by
  induction h with
  | terminal z hz =>
    intro fuel hf
    cases fuel with
    | zero => omega
    | succ m => simp [followAliases, hz]
  | step x y z n hx he hc ih =>
    intro fuel hf
    cases fuel with
    | zero => omega
    | succ m =>
      rw [followAliases, if_neg (by simp [hx]), he]
      exact ih m (by omega)

/-- C7: alias resolution is transitive and transparent — for every alias
chain from `a` to an id `z` that has a direct Binding or Instance, `make(a)`
behaves exactly as `make(z)` (same value, same resulting state, same factory
invocations, hence the same sharing semantics), and `bound(a)` agrees with
`bound(z)`. -/
theorem alias_chain_make_transparent (s : Cont V) (a z : String) (n : Nat)
    (h : AliasChain s a z n) (hn : n ≤ s.aliases.length) :
    make s a = make s z ∧ bound s a = bound s z := by
  have hz : hasBI s z = true := aliasChain_hasBI h
  have h1 : terminalId s a = z :=
    aliasChain_followAliases h (s.aliases.length + 1) (by omega)
  have h2 : terminalId s z = z := terminalId_of_hasBI s z hz
  exact ⟨by rw [make, make, h1, h2], by rw [bound, bound, h1, h2]⟩

/-- Witness for C7: `bind('real', f)` (shared), `alias('real','a')`,
`alias('a','b')` — `make('b')` coincides with `make('real')`. -/
theorem alias_chain_make_transparent_witness :
    make (aliasC (aliasC (bind (⟨[], [], [], [], 0⟩ : Cont Nat) "real"
        (fun n => n) true) "real" "a") "a" "b") "b"
      = make (aliasC (aliasC (bind (⟨[], [], [], [], 0⟩ : Cont Nat) "real"
        (fun n => n) true) "real" "a") "a" "b") "real" :=
  (alias_chain_make_transparent
    (aliasC (aliasC (bind (⟨[], [], [], [], 0⟩ : Cont Nat) "real"
      (fun n => n) true) "real" "a") "a" "b") "b" "real" 2
    (AliasChain.step "b" "a" "real" 1 rfl rfl
      (AliasChain.step "a" "real" "real" 0 rfl rfl
        (AliasChain.terminal "real" rfl)))
    (by decide)).1

/-! Facade (C8, C9). -/

/-- C8: when a Facade attempts to resolve its accessor before the facade
application has been set and no instance for that accessor name is cached,
the resolution raises the facade-root error (`FacadeRootUnavailableError`;
`Error('A facade root has not been set.')` in the source) and no facade root
is produced. -/
theorem facade_root_unavailable_when_app_unset (st : FacadeS V) (name : String)
    (happ : st.app = none)
    (hcache : lookupA st.resolvedInstances name = none) :
    resolveFacadeInstance st name = .error .rootUnavailable := by
  rw [resolveFacadeInstance, hcache, happ]

/-- Witness for C8: an empty facade state with no application set fails to
resolve `'db'` with the facade-root error. -/
theorem facade_root_unavailable_when_app_unset_witness :
    resolveFacadeInstance (⟨none, []⟩ : FacadeS Nat) "db"
      = .error .rootUnavailable :=
  facade_root_unavailable_when_app_unset (⟨none, []⟩ : FacadeS Nat) "db" rfl rfl

/-- C9: facade resolution is resolve-at-most-once per accessor name through
the single static cache shared by all Facade subclasses — a successful
`resolveFacadeInstance(name)` stores its result in the cache, and any state
whose cache holds `v` under `name` (whatever its application field now is:
rebound, replaced or unset) resolves `name` to the identical `v` with the
state unchanged, never reaching `Application.make` — until
`clearResolvedInstance(name)` or `clearResolvedInstances()` removes the
entry. -/
theorem facade_resolves_at_most_once (name : String) (v : V) :
    (∀ st st' : FacadeS V, resolveFacadeInstance st name = .ok (v, st') →
        lookupA st'.resolvedInstances name = some v)
    ∧ (∀ st : FacadeS V, lookupA st.resolvedInstances name = some v →
        resolveFacadeInstance st name = .ok (v, st))
    ∧ (∀ st : FacadeS V,
        lookupA (clearResolvedInstance st name).resolvedInstances name = none)
    ∧ (∀ st : FacadeS V,
        lookupA (clearResolvedInstances st).resolvedInstances name = none) := by
  refine ⟨?_, ?_, ?_, fun st => rfl⟩
  · intro st st' h
    rw [resolveFacadeInstance] at h
    split at h
    · rename_i w hc
      injection h with h'
      injection h' with h1 h2
      subst h1; subst h2
      exact hc
    · split at h
      · split at h
        · rename_i hm
          injection h with h'
          injection h' with h1 h2
          subst h1; subst h2
          exact lookupA_insertA_self st.resolvedInstances name _
        · exact absurd h (by simp)
      · exact absurd h (by simp)
  · intro st hc
    rw [resolveFacadeInstance, hc]
  · intro st
    exact lookupA_eraseA_self st.resolvedInstances name

/-- Witness for C9: a facade state whose cache holds `7` under `'db'` — with
the application unset, so no `make` is even possible — resolves `'db'` to the
cached `7` with the state unchanged. -/
theorem facade_resolves_at_most_once_witness :
    resolveFacadeInstance (⟨none, [("db", 7)]⟩ : FacadeS Nat) "db"
      = .ok (7, (⟨none, [("db", 7)]⟩ : FacadeS Nat)) :=
  (facade_resolves_at_most_once "db" 7).2.1 (⟨none, [("db", 7)]⟩ : FacadeS Nat) rfl

/-! Event serialization (C10). -/

theorem deserialize_serialize (v : JVal) (h : isPrimOrDate v = true) :
    deserializeValue (serializeValue v) = v := by
  cases v <;> first
    | rfl
    | exact Bool.noConfusion h

theorem isUndef_serializeValue (v : JVal) (h : isUndef v = false) :
    isUndef (serializeValue v) = false := by
  cases v <;> simp_all [isUndef, serializeValue]

theorem fromJSON_toJSON_lookup (cn : String) (sl : List String)
    (props : List (String × JVal))
    (hnd : (props.map Prod.fst).Nodup)
    (hvals : ∀ kv ∈ props, strStartsWith kv.1 "_" = false → isPrimOrDate kv.2 = true)
    (k : String) (v : JVal) (hmem : (k, v) ∈ props)
    (hk : strStartsWith k "_" = false) (hsl : sl.contains k = false) :
    lookupA (Event.fromJSON cn sl (Event.toJSON ⟨cn, sl, props⟩)).props k = some v := by
  have hkc : ¬k = "_class" := by
    intro he
    rw [he] at hk
    exact Bool.noConfusion ((by decide : strStartsWith "_class" "_" = true) ▸ hk)
  simp only [Event.fromJSON, Event.toJSON, List.filterMap_cons]
  rw [if_pos (by simp)]
  induction props with
  | nil => cases hmem
  | cons kv rest ih =>
    obtain ⟨k', v'⟩ := kv
    simp only [List.map_cons, List.nodup_cons] at hnd
    obtain ⟨hk'new, hndrest⟩ := hnd
    have hvrest : ∀ kv ∈ rest, strStartsWith kv.1 "_" = false → isPrimOrDate kv.2 = true :=
      fun kv hm => hvals kv (List.mem_cons_of_mem _ hm)
    rw [List.filterMap_cons]
    by_cases hsl' : sl.contains k' = true
    · rw [if_pos hsl']
      rcases List.mem_cons.mp hmem with he | hm
      · obtain ⟨rfl, rfl⟩ : k = k' ∧ v = v' := ⟨congrArg Prod.fst he, congrArg Prod.snd he⟩
        rw [hsl'] at hsl
        exact Bool.noConfusion hsl
      · exact ih hndrest hvrest hm
    · rw [if_neg hsl']
      by_cases hk' : strStartsWith k' "_" = true
      · rw [if_pos hk']
        rcases List.mem_cons.mp hmem with he | hm
        · obtain rfl : k = k' := congrArg Prod.fst he
          rw [hk'] at hk
          exact Bool.noConfusion hk
        · exact ih hndrest hvrest hm
      · rw [if_neg hk']
        by_cases hu : isUndef v' = true
        · rw [if_pos hu]
          rcases List.mem_cons.mp hmem with he | hm
          · obtain ⟨rfl, rfl⟩ : k = k' ∧ v = v' := ⟨congrArg Prod.fst he, congrArg Prod.snd he⟩
            have hp : isPrimOrDate v = true :=
              hvals (k, v) (List.mem_cons_self _ _) hk
            cases v <;> simp_all [isUndef, isPrimOrDate]
          · exact ih hndrest hvrest hm
        · rw [if_neg hu]
          have hk'cls : ¬k' = "_class" := by
            intro he
            rw [he] at hk'
            exact hk' (by decide)
          rw [List.filterMap_cons,
            if_neg (by simpa using hk'cls)]
          by_cases hkk : k' = k
          · subst hkk
            rcases List.mem_cons.mp hmem with he | hm
            · obtain rfl : v = v' := congrArg Prod.snd he
              rw [lookupA, if_pos (by simp)]
              rw [deserialize_serialize v
                (hvals (k', v) (List.mem_cons_self _ _) hk)]
            · exact absurd (List.mem_map_of_mem Prod.fst hm) hk'new
          · rcases List.mem_cons.mp hmem with he | hm
            · exact absurd (congrArg Prod.fst he).symm hkk
            · rw [lookupA, if_neg (by simpa using hkk)]
              exact ih hndrest hvrest hm

/-- C10 counterexample: an event class whose static `serializable` exclusion
list contains `'secret'`, on an instance whose own property `secret` is the
defined primitive `5`; `toJSON` omits the excluded property, so the
round-tripped instance has no `secret` property at all — the claim's
round-trip equality fails for it. -/
theorem event_roundtrip_counterexample :
    isPrimOrDate (JVal.num 5) = true
    ∧ strStartsWith "secret" "_" = false
    ∧ lookupA (Event.fromJSON "E" ["secret"]
        (Event.toJSON ⟨"E", ["secret"], [("secret", JVal.num 5)]⟩)).props "secret"
      = none :=
  ⟨rfl, by decide, rfl⟩

/-- C10 (amended): for every Event instance whose own enumerable properties
not starting with `_` are defined primitives or Date objects,
`fromJSON(toJSON())` (invoked on the event's own class) yields an instance of
the same prototype whose corresponding properties **not listed in the class's
static `serializable` exclusion list** are restored equal (Dates are encoded
as `{_type: 'Date'}` markers and restored with the same time value), and
`toJSON()` always includes a `_class` field equal to the constructor name
while omitting `_`-prefixed and undefined properties. -/
theorem event_roundtrip_amended (ev : EventObj)
    (hnd : (ev.props.map Prod.fst).Nodup)
    (hvals : ∀ kv ∈ ev.props, strStartsWith kv.1 "_" = false →
      isPrimOrDate kv.2 = true) :
    (Event.fromJSON ev.className ev.serializable (Event.toJSON ev)).className
      = ev.className
    ∧ (∀ k v, (k, v) ∈ ev.props → strStartsWith k "_" = false →
        ev.serializable.contains k = false →
        lookupA (Event.fromJSON ev.className ev.serializable
          (Event.toJSON ev)).props k = some v)
    ∧ ("_class", JVal.str ev.className) ∈ Event.toJSON ev
    ∧ (∀ k v, (k, v) ∈ Event.toJSON ev → k ≠ "_class" →
        strStartsWith k "_" = false ∧ isUndef v = false) := by
  obtain ⟨cn, sl, props⟩ := ev
  refine ⟨rfl, ?_, List.mem_cons_self _ _, ?_⟩
  · intro k v hm hk hsl
    exact fromJSON_toJSON_lookup cn sl props hnd hvals k v hm hk hsl
  · intro k v hmem hkc
    rcases List.mem_cons.mp hmem with he | hm
    · exact absurd (congrArg Prod.fst he) hkc
    · obtain ⟨⟨k0, v0⟩, hin, heq⟩ := List.mem_filterMap.mp hm
      split at heq
      · exact Option.noConfusion heq
      · split at heq
        · exact Option.noConfusion heq
        · split at heq
          · exact Option.noConfusion heq
          · rename_i hk0 hu0
            obtain ⟨rfl, rfl⟩ : k0 = k ∧ serializeValue v0 = v := by
              have := Option.some.inj heq
              exact ⟨congrArg Prod.fst this, congrArg Prod.snd this⟩
            exact ⟨by simpa using hk0,
              isUndef_serializeValue v0 (by simpa using hu0)⟩

/-- Witness for C10 (amended): an event with a string property and a Date
property round-trips — the Date comes back with the same time value. -/
theorem event_roundtrip_amended_witness :
    lookupA (Event.fromJSON "UserRegistered" []
      (Event.toJSON ⟨"UserRegistered", [],
        [("name", JVal.str "Ada"), ("when", JVal.date 123)]⟩)).props "when"
      = some (JVal.date 123) :=
  ((event_roundtrip_amended
      ⟨"UserRegistered", [], [("name", JVal.str "Ada"), ("when", JVal.date 123)]⟩
      (by decide) (by decide)).2.1 "when" (JVal.date 123)
    (List.Mem.tail _ (List.Mem.head _)) (by decide) (by decide))

end Orchestr
